import Mathlib

/-!
# Verification of the EGM trajectory interface core

Shallow embedding of `include/abb_libegm/egm_trajectory_interface.h`
(class `EGMTrajectoryInterface` and its nested helpers), together with
proofs of the specified properties.

Protobuf point-goal messages (`wrapper::trajectory::PointGoal`) are opaque
payloads to the queueing layer, so the embedding is parametric in the point
type `α`.  Machine `double` quantities are modelled as exact rationals `ℚ`
(the code performs only comparisons, additions and multiplications on them),
and the raised-cosine ramp weights are modelled over `ℝ`.
-/

namespace AbbEgm

/-- Embeds nested class `Trajectory`: its private member
`std::deque<wrapper::trajectory::PointGoal> points_`, front of the deque
first. -/
structure Trajectory (α : Type) where
  points : List α
  deriving Repr, DecidableEq

namespace Trajectory

/-- Embeds `Trajectory::Trajectory()` (default constructor: empty deque). -/
def empty {α : Type} : Trajectory α := ⟨[]⟩

/-- Embeds `Trajectory::addTrajectoryPointFront` (`points_.push_front(point)`). -/
def addTrajectoryPointFront {α : Type} (t : Trajectory α) (point : α) : Trajectory α :=
  ⟨point :: t.points⟩

/-- Embeds `Trajectory::addTrajectoryPointBack` (`points_.push_back(point)`). -/
def addTrajectoryPointBack {α : Type} (t : Trajectory α) (point : α) : Trajectory α :=
  ⟨t.points ++ [point]⟩

/-- Embeds `Trajectory::Trajectory(const wrapper::trajectory::TrajectoryGoal&)`:
iterates `i = 0 .. points_size() - 1` calling `addTrajectoryPointBack` on
`trajectory.points().Get(i)`.  A `TrajectoryGoal` is its ordered point list. -/
def ofTrajectoryGoal {α : Type} (trajectory : List α) : Trajectory α :=
  trajectory.foldl (fun t p => t.addTrajectoryPointBack p) empty

/-- Embeds `Trajectory::retriveNextTrajectoryPoint(PointGoal* p_point)`.
`p_point_valid` models the null test `p_point &&`.  The result triple is
(the `bool` return value, the value copied into `*p_point` if any, the
trajectory after the call):
`result = false; if (p_point && !points_.empty()) { *p_point = points_.front();
points_.pop_front(); result = true; } return result;`. -/
def retriveNextTrajectoryPoint {α : Type} (t : Trajectory α) (p_point_valid : Bool) :
    Bool × Option α × Trajectory α :=
  if p_point_valid then
    match t.points with
    | [] => (false, none, t)
    | p :: rest => (true, some p, ⟨rest⟩)
  else
    (false, none, t)

/-- Embeds `Trajectory::size()` (`points_.size()`). -/
def size {α : Type} (t : Trajectory α) : Nat :=
  t.points.length

/-- Repeatedly call `retriveNextTrajectoryPoint` (with a valid output
pointer) at most `fuel` times, collecting the delivered points in order. -/
def drainFuel {α : Type} : Nat → Trajectory α → List α
  | 0, _ => []
  | fuel + 1, t =>
    match t.retriveNextTrajectoryPoint true with
    | (true, some p, t') => p :: drainFuel fuel t'
    | _ => []

/-- The full delivery sequence of a trajectory: call
`retriveNextTrajectoryPoint` once per stored point. -/
def drain {α : Type} (t : Trajectory α) : List α :=
  drainFuel t.size t

end Trajectory

theorem Trajectory.drainFuel_points {α : Type} :
    ∀ (l : List α) (fuel : Nat), l.length ≤ fuel →
      Trajectory.drainFuel fuel ⟨l⟩ = l := by
  intro l
  induction l with
  | nil =>
    intro fuel _
    cases fuel with
    | zero => rfl
    | succ n => rfl
  | cons p rest ih =>
    intro fuel hf
    cases fuel with
    | zero => exact absurd hf (by simp)
    | succ n =>
      have hrest : rest.length ≤ n := Nat.le_of_succ_le_succ (by simpa using hf)
      simp only [Trajectory.drainFuel, Trajectory.retriveNextTrajectoryPoint]
      exact congrArg (p :: ·) (ih n hrest)

theorem Trajectory.drain_eq_points {α : Type} (t : Trajectory α) :
    t.drain = t.points := by
  cases t with
  | mk l => exact Trajectory.drainFuel_points l l.length (Nat.le_refl _)

/-- C1 -- `Trajectory::retriveNextTrajectoryPoint` is a strict FIFO dequeue:
on a non-empty trajectory with a valid output location it returns `true`,
delivers the front (earliest-added remaining) point and removes exactly that
point; on an empty trajectory it returns `false` with nothing delivered and
nothing changed (absence of value, not an error); and draining the
trajectory by repeated calls delivers the points exactly in insertion
order. -/
theorem retriveNextTrajectoryPoint_strict_fifo {α : Type} (t : Trajectory α) :
    (∀ p rest, t.points = p :: rest →
      t.retriveNextTrajectoryPoint true = (true, some p, ⟨rest⟩)) ∧
    (t.points = [] → t.retriveNextTrajectoryPoint true = (false, none, t)) ∧
    t.drain = t.points := by
  refine ⟨?_, ?_, Trajectory.drain_eq_points t⟩
  · intro p rest h
    simp [Trajectory.retriveNextTrajectoryPoint, h]
  · intro h
    simp [Trajectory.retriveNextTrajectoryPoint, h]

/-- Witness for C1 at the concrete trajectory ⟨[10, 20, 30]⟩. -/
theorem retriveNextTrajectoryPoint_strict_fifo_witness :
    (Trajectory.mk [10, 20, 30] : Trajectory Nat).retriveNextTrajectoryPoint true
        = (true, some 10, ⟨[20, 30]⟩) ∧
    (Trajectory.mk [10, 20, 30] : Trajectory Nat).drain = [10, 20, 30] := by
  refine ⟨(retriveNextTrajectoryPoint_strict_fifo ⟨[10, 20, 30]⟩).1 10 [20, 30] rfl, ?_⟩
  exact (retriveNextTrajectoryPoint_strict_fifo (⟨[10, 20, 30]⟩ : Trajectory Nat)).2.2

/-- Embeds struct `TrajectoryContainer`: `primary_queue` (deque of queued
trajectories, front first) and `p_current` (the currently active trajectory,
`none` when the shared pointer is empty).  The `temporary_queue` member is
used only by the discard event handling, which no claim touches, so it is
omitted. -/
structure TrajectoryContainer (α : Type) where
  primary_queue : List (Trajectory α)
  p_current : Option (Trajectory α)
  deriving Repr, DecidableEq

namespace TrajectoryContainer

/-- Modelled from the spec: `append(trajectory, override)` — the
implementation file of `TrajectoryMotion::addTrajectory` is not in the
sources, only its declaration; per the spec, "if override, atomically
replace all un-executed content (queue + active) with the new single
trajectory; else push to the back of the primary sequence, preserving prior
order. Always succeeds." -/
def append {α : Type} (c : TrajectoryContainer α) (t : Trajectory α)
    (override_trajectories : Bool) : TrajectoryContainer α :=
  if override_trajectories then ⟨[t], none⟩
  else ⟨c.primary_queue ++ [t], c.p_current⟩

/-- Modelled from the spec: the promotion loop of `dequeueNextPoint` — when
the active trajectory is exhausted, the queue's front trajectory is promoted
to active and its first point delivered, skipping exhausted trajectories;
"no point" is reported when nothing remains. -/
def promoteLoop {α : Type} : List (Trajectory α) → Option α × TrajectoryContainer α
  | [] => (none, ⟨[], none⟩)
  | t :: rest =>
    match t.retriveNextTrajectoryPoint true with
    | (true, some p, t') => (some p, ⟨rest, some t'⟩)
    | _ => promoteLoop rest

/-- Modelled from the spec: `dequeueNextPoint()` — the implementation file
(`TrajectoryMotion::updateNormalGoal`) is not in the sources; per the spec
it "returns the next point from the active trajectory; promotes the queue's
front trajectory to active when the active one is exhausted; reports
'no point' (not an error) when nothing remains."  Individual points are
taken with `Trajectory::retriveNextTrajectoryPoint`. -/
def dequeueNextPoint {α : Type} (c : TrajectoryContainer α) :
    Option α × TrajectoryContainer α :=
  match c.p_current with
  | some t =>
    match t.retriveNextTrajectoryPoint true with
    | (true, some p, t') => (some p, ⟨c.primary_queue, some t'⟩)
    | _ => promoteLoop c.primary_queue
  | none => promoteLoop c.primary_queue

/-- All un-executed points of the container: the remainder of the active
trajectory followed by the queued trajectories' points in order. -/
def allPoints {α : Type} (c : TrajectoryContainer α) : List α :=
  (match c.p_current with
   | some t => t.points
   | none => []) ++ (c.primary_queue.map Trajectory.points).flatten

/-- Repeatedly call `dequeueNextPoint` at most `fuel` times, collecting
delivered points in order, stopping at the first "no point" report. -/
def dequeueFuel {α : Type} : Nat → TrajectoryContainer α → List α
  | 0, _ => []
  | fuel + 1, c =>
    match c.dequeueNextPoint with
    | (some p, c') => p :: dequeueFuel fuel c'
    | (none, _) => []

/-- The point-delivery sequence of the container: dequeue until "no point". -/
def deliverySequence {α : Type} (c : TrajectoryContainer α) : List α :=
  dequeueFuel c.allPoints.length c

end TrajectoryContainer

theorem TrajectoryContainer.promoteLoop_spec {α : Type} (q : List (Trajectory α)) :
    (TrajectoryContainer.promoteLoop q).1 = ((q.map Trajectory.points).flatten).head? ∧
    (TrajectoryContainer.promoteLoop q).2.allPoints = ((q.map Trajectory.points).flatten).tail := by
  induction q with
  | nil => exact ⟨rfl, rfl⟩
  | cons t rest ih =>
    cases ht : t.points with
    | nil =>
      have hstep : TrajectoryContainer.promoteLoop (t :: rest)
          = TrajectoryContainer.promoteLoop rest := by
        simp [TrajectoryContainer.promoteLoop, Trajectory.retriveNextTrajectoryPoint, ht]
      rw [hstep]
      simpa [ht] using ih
    | cons p ps =>
      have hstep : TrajectoryContainer.promoteLoop (t :: rest)
          = (some p, ⟨rest, some ⟨ps⟩⟩) := by
        simp [TrajectoryContainer.promoteLoop, Trajectory.retriveNextTrajectoryPoint, ht]
      rw [hstep]
      exact ⟨by simp [ht], by simp [TrajectoryContainer.allPoints, ht]⟩

theorem TrajectoryContainer.dequeueNextPoint_spec {α : Type} (c : TrajectoryContainer α) :
    (c.dequeueNextPoint).1 = c.allPoints.head? ∧
    (c.dequeueNextPoint).2.allPoints = c.allPoints.tail := by
  cases hc : c.p_current with
  | none =>
    have hstep : c.dequeueNextPoint = TrajectoryContainer.promoteLoop c.primary_queue := by
      simp [TrajectoryContainer.dequeueNextPoint, hc]
    rw [hstep]
    simpa [TrajectoryContainer.allPoints, hc] using
      TrajectoryContainer.promoteLoop_spec c.primary_queue
  | some t =>
    cases ht : t.points with
    | nil =>
      have hstep : c.dequeueNextPoint = TrajectoryContainer.promoteLoop c.primary_queue := by
        simp [TrajectoryContainer.dequeueNextPoint, hc,
          Trajectory.retriveNextTrajectoryPoint, ht]
      rw [hstep]
      simpa [TrajectoryContainer.allPoints, hc, ht] using
        TrajectoryContainer.promoteLoop_spec c.primary_queue
    | cons p ps =>
      have hstep : c.dequeueNextPoint = (some p, ⟨c.primary_queue, some ⟨ps⟩⟩) := by
        simp [TrajectoryContainer.dequeueNextPoint, hc,
          Trajectory.retriveNextTrajectoryPoint, ht]
      rw [hstep]
      exact ⟨by simp [TrajectoryContainer.allPoints, hc, ht],
        by simp [TrajectoryContainer.allPoints, hc, ht]⟩

theorem TrajectoryContainer.dequeueFuel_eq {α : Type} :
    ∀ (fuel : Nat) (c : TrajectoryContainer α), c.allPoints.length ≤ fuel →
      TrajectoryContainer.dequeueFuel fuel c = c.allPoints := by
  intro fuel
  induction fuel with
  | zero =>
    intro c h
    have : c.allPoints = [] := List.length_eq_zero.mp (Nat.le_zero.mp h)
    simp [TrajectoryContainer.dequeueFuel, this]
  | succ n ih =>
    intro c h
    obtain ⟨h1, h2⟩ := TrajectoryContainer.dequeueNextPoint_spec c
    cases hap : c.allPoints with
    | nil =>
      have hdq : (c.dequeueNextPoint).1 = none := by rw [h1, hap]; rfl
      cases hd : c.dequeueNextPoint with
      | mk o c' =>
        cases o with
        | none => simp [TrajectoryContainer.dequeueFuel, hd]
        | some p => exact absurd (by rw [hd] at hdq; exact hdq) (by simp)
    | cons p l =>
      cases hd : c.dequeueNextPoint with
      | mk o c' =>
        have ho : o = some p := by
          have := h1
          rw [hd, hap] at this
          exact this
        have hc' : c'.allPoints = l := by
          have := h2
          rw [hd, hap] at this
          exact this
        have hlen : c'.allPoints.length ≤ n := by
          rw [hc']
          have := h
          rw [hap] at this
          simpa using Nat.le_of_succ_le_succ this
        subst ho
        simp only [TrajectoryContainer.dequeueFuel, hd]
        rw [ih c' hlen, hc']

theorem TrajectoryContainer.deliverySequence_eq {α : Type} (c : TrajectoryContainer α) :
    c.deliverySequence = c.allPoints :=
  TrajectoryContainer.dequeueFuel_eq _ c (Nat.le_refl _)

theorem Trajectory.ofTrajectoryGoal_foldl {α : Type} :
    ∀ (g : List α) (acc : Trajectory α),
      (g.foldl (fun t p => t.addTrajectoryPointBack p) acc).points = acc.points ++ g := by
  intro g
  induction g with
  | nil => intro acc; simp
  | cons p rest ih =>
    intro acc
    rw [List.foldl_cons, ih (acc.addTrajectoryPointBack p)]
    simp [Trajectory.addTrajectoryPointBack]

theorem Trajectory.ofTrajectoryGoal_points {α : Type} (g : List α) :
    (Trajectory.ofTrajectoryGoal g).points = g := by
  simpa [Trajectory.empty] using
    Trajectory.ofTrajectoryGoal_foldl g Trajectory.empty

/-- C3 -- appending a trajectory without override preserves FIFO delivery
order: for any pending content (active remainder plus queue) the subsequent
point-delivery order equals the pending points in their existing order
followed by the new trajectory's points in original order; and a
`Trajectory` constructed from an n-point `TrajectoryGoal`, dequeued
repeatedly, yields the points at indices 0 through n-1 in that order. -/
theorem append_no_override_delivery_order {α : Type}
    (c : TrajectoryContainer α) (g : List α) :
    (c.append (Trajectory.ofTrajectoryGoal g) false).deliverySequence
        = c.deliverySequence ++ g ∧
    (Trajectory.ofTrajectoryGoal g).drain = g := by
  constructor
  · rw [TrajectoryContainer.deliverySequence_eq, TrajectoryContainer.deliverySequence_eq]
    simp [TrajectoryContainer.append, TrajectoryContainer.allPoints,
      Trajectory.ofTrajectoryGoal_points]
  · rw [Trajectory.drain_eq_points, Trajectory.ofTrajectoryGoal_points]

/-- Witness for C3: pending content ⟨queue = [⟨[2]⟩], active = ⟨[1]⟩⟩ with
appended goal [3, 4] delivers [1, 2, 3, 4]. -/
theorem append_no_override_delivery_order_witness :
    ((⟨[⟨[2]⟩], some ⟨[1]⟩⟩ : TrajectoryContainer Nat).append
        (Trajectory.ofTrajectoryGoal [3, 4]) false).deliverySequence
      = (⟨[⟨[2]⟩], some ⟨[1]⟩⟩ : TrajectoryContainer Nat).deliverySequence ++ [3, 4] :=
  (append_no_override_delivery_order (⟨[⟨[2]⟩], some ⟨[1]⟩⟩ : TrajectoryContainer Nat)
    [3, 4]).1

/-- C4 -- appending a trajectory with override atomically replaces all
un-executed content: every point delivered afterwards belongs to the new
trajectory (delivery is exactly its point list), so no point of a
previously queued, undelivered trajectory is ever delivered. -/
theorem append_override_replaces_all {α : Type}
    (c : TrajectoryContainer α) (g : List α) :
    (c.append (Trajectory.ofTrajectoryGoal g) true).deliverySequence = g ∧
    ∀ p, p ∈ (c.append (Trajectory.ofTrajectoryGoal g) true).deliverySequence → p ∈ g := by
  have h : (c.append (Trajectory.ofTrajectoryGoal g) true).deliverySequence = g := by
    rw [TrajectoryContainer.deliverySequence_eq]
    simp [TrajectoryContainer.append, TrajectoryContainer.allPoints,
      Trajectory.ofTrajectoryGoal_points]
  exact ⟨h, fun p hp => h ▸ hp⟩

/-- Witness for C4: overriding pending content ⟨queue = [⟨[8, 9]⟩], active =
⟨[7]⟩⟩ with goal [5] delivers exactly [5]. -/
theorem append_override_replaces_all_witness :
    ((⟨[⟨[8, 9]⟩], some ⟨[7]⟩⟩ : TrajectoryContainer Nat).append
        (Trajectory.ofTrajectoryGoal [5]) true).deliverySequence = [5] :=
  (append_override_replaces_all (⟨[⟨[8, 9]⟩], some ⟨[7]⟩⟩ : TrajectoryContainer Nat) [5]).1

/-- C10 -- `Trajectory::retriveNextTrajectoryPoint` is atomic on failure: if
the output pointer is null or the trajectory is empty the call returns
`false` and the trajectory is completely unchanged; conversely whenever the
call does not return `true` the trajectory is unchanged, so a point is
removed only on a call that returns `true`. -/
theorem retriveNextTrajectoryPoint_atomic_on_failure {α : Type}
    (t : Trajectory α) (v : Bool) :
    (v = false ∨ t.points = [] → t.retriveNextTrajectoryPoint v = (false, none, t)) ∧
    ((t.retriveNextTrajectoryPoint v).1 = false →
      (t.retriveNextTrajectoryPoint v).2.2 = t) := by
  constructor
  · rintro (hv | hp)
    · simp [Trajectory.retriveNextTrajectoryPoint, hv]
    · cases v <;> simp [Trajectory.retriveNextTrajectoryPoint, hp]
  · intro h
    cases v with
    | false => rfl
    | true =>
      cases ht : t.points with
      | nil => simp [Trajectory.retriveNextTrajectoryPoint, ht]
      | cons p rest =>
        exact absurd h (by simp [Trajectory.retriveNextTrajectoryPoint, ht])

/-- Witness for C10: a null output pointer on ⟨[7]⟩, and an empty trajectory
with a valid pointer, both return `false` and leave the trajectory intact. -/
theorem retriveNextTrajectoryPoint_atomic_on_failure_witness :
    (Trajectory.mk [7] : Trajectory Nat).retriveNextTrajectoryPoint false
        = (false, none, ⟨[7]⟩) ∧
    (Trajectory.mk [] : Trajectory Nat).retriveNextTrajectoryPoint true
        = (false, none, ⟨[]⟩) := by
  refine ⟨(retriveNextTrajectoryPoint_atomic_on_failure ⟨[7]⟩ false).1 (Or.inl rfl), ?_⟩
  exact (retriveNextTrajectoryPoint_atomic_on_failure (⟨[]⟩ : Trajectory Nat) true).1 (Or.inr rfl)

/-- Embeds struct `ConfigurationContainer`: `active` (the active
configuration), `update` (the configuration update) and
`has_pending_update` (the dirty flag), parametric in the configuration
payload type `κ` (`TrajectoryConfiguration` is opaque here). -/
structure ConfigurationContainer (κ : Type) where
  active : κ
  update : κ
  has_pending_update : Bool
  deriving Repr, DecidableEq

namespace ConfigurationContainer

/-- Embeds `ConfigurationContainer::ConfigurationContainer(initial)`:
`active(initial), update(initial), has_pending_update(false)`. -/
def init {κ : Type} (initial : κ) : ConfigurationContainer κ :=
  ⟨initial, initial, false⟩

/-- Modelled from the spec: `setConfiguration` — its implementation file is
not in the sources, only its declaration; per the spec, the submitted
configuration is stored only as the pending update with the dirty flag set
("update is only applied for new EGM communication sessions"). -/
def setConfiguration {κ : Type} (c : ConfigurationContainer κ) (configuration : κ) :
    ConfigurationContainer κ :=
  { c with update := configuration, has_pending_update := true }

/-- Modelled from the spec: `getConfiguration` — its implementation file is
not in the sources; per the spec it reports the active configuration. -/
def getConfiguration {κ : Type} (c : ConfigurationContainer κ) : κ :=
  c.active

/-- Modelled from the spec: at a session start, "pending becomes active only
at session start, never mid-session" — the pending update, if dirty, is
promoted to active and the dirty flag cleared. -/
def applyPendingAtSessionStart {κ : Type} (c : ConfigurationContainer κ) :
    ConfigurationContainer κ :=
  if c.has_pending_update then ⟨c.update, c.update, false⟩ else c

end ConfigurationContainer

/-- C5 -- `setConfiguration` during an active session defers the update: the
submitted configuration is stored only as the pending update with the dirty
flag set, the active configuration is unchanged so `getConfiguration`
immediately afterwards still returns the prior active configuration, and the
submitted configuration becomes active exactly at the next session start. -/
theorem setConfiguration_deferred_until_session_start {κ : Type}
    (c : ConfigurationContainer κ) (cfg : κ) :
    (c.setConfiguration cfg).getConfiguration = c.getConfiguration ∧
    (c.setConfiguration cfg).active = c.active ∧
    (c.setConfiguration cfg).update = cfg ∧
    (c.setConfiguration cfg).has_pending_update = true ∧
    ((c.setConfiguration cfg).applyPendingAtSessionStart).getConfiguration = cfg := by
  refine ⟨rfl, rfl, rfl, rfl, ?_⟩
  simp [ConfigurationContainer.setConfiguration, ConfigurationContainer.getConfiguration,
    ConfigurationContainer.applyPendingAtSessionStart]

/-- Witness for C5: starting from the initial configuration 0, submitting 1
mid-session leaves 0 active until session start, then 1 becomes active. -/
theorem setConfiguration_deferred_until_session_start_witness :
    ((ConfigurationContainer.init 0 : ConfigurationContainer Nat).setConfiguration
        1).getConfiguration = (ConfigurationContainer.init 0).getConfiguration ∧
    (((ConfigurationContainer.init 0 : ConfigurationContainer Nat).setConfiguration
        1).applyPendingAtSessionStart).getConfiguration = 1 :=
  ⟨(setConfiguration_deferred_until_session_start (ConfigurationContainer.init 0) 1).1,
   (setConfiguration_deferred_until_session_start
      (ConfigurationContainer.init 0) 1).2.2.2.2⟩

/-- Embeds the progress-reporting part of struct `DecisionData`:
`has_updated_execution_progress` (the "changed since last read" flag) and
`execution_progress` (the snapshot, opaque payload type `π`). -/
structure DecisionProgress (π : Type) where
  has_updated_execution_progress : Bool
  execution_progress : π
  deriving Repr, DecidableEq

namespace DecisionProgress

/-- Modelled from the spec: `TrajectoryMotion::retrieveExecutionProgress` —
its implementation file is not in the sources, only its declaration ("bool
indicating if the execution progress has been recently updated or not");
per the spec the snapshot carries a "'changed since last read' flag consumed
on read".  The result triple is (the `bool` return value, the snapshot
copied to the caller, the state after the call). -/
def retrieveExecutionProgress {π : Type} (d : DecisionProgress π) :
    Bool × π × DecisionProgress π :=
  (d.has_updated_execution_progress, d.execution_progress,
    { d with has_updated_execution_progress := false })

/-- Modelled from the spec: the per-cycle publication of the progress
snapshot sets the "changed since last read" flag. -/
def publishExecutionProgress {π : Type} (_d : DecisionProgress π) (progress : π) :
    DecisionProgress π :=
  ⟨true, progress⟩

end DecisionProgress

/-- C6 -- `retrieveExecutionProgress` returns true iff the execution
progress has been updated since the previous read, and reading consumes the
flag: a publication sets the flag, a read returns it, and the read
immediately following a read (with no intervening publication) returns
false. -/
theorem retrieveExecutionProgress_consumes_flag {π : Type}
    (d : DecisionProgress π) (progress : π) :
    ((d.retrieveExecutionProgress).1 = d.has_updated_execution_progress) ∧
    ((d.publishExecutionProgress progress).retrieveExecutionProgress.1 = true) ∧
    (((d.retrieveExecutionProgress).2.2).retrieveExecutionProgress.1 = false) := by
  exact ⟨rfl, rfl, rfl⟩

/-- Witness for C6: after publishing the snapshot 42, the first read returns
true and the immediately following read returns false. -/
theorem retrieveExecutionProgress_consumes_flag_witness :
    ((⟨false, 0⟩ : DecisionProgress Nat).publishExecutionProgress
        42).retrieveExecutionProgress.1 = true ∧
    ((((⟨false, 0⟩ : DecisionProgress Nat).publishExecutionProgress
        42).retrieveExecutionProgress.2.2).retrieveExecutionProgress.1 = false) :=
  ⟨(retrieveExecutionProgress_consumes_flag (⟨false, 0⟩ : DecisionProgress Nat) 42).2.1,
   (retrieveExecutionProgress_consumes_flag
      ((⟨false, 0⟩ : DecisionProgress Nat).publishExecutionProgress 42) 42).2.2⟩

/-- Embeds constant `TrajectoryMotion::DURATION_FACTOR_MIN` (1.0). -/
def DURATION_FACTOR_MIN : ℚ := 1

/-- Embeds constant `TrajectoryMotion::DURATION_FACTOR_MAX` (5.0). -/
def DURATION_FACTOR_MAX : ℚ := 5

/-- Modelled from the spec: saturation of a requested value to the closed
interval `[lo, hi]` ("clamp requested value to [1.0, 5.0]"). -/
def saturate (value lo hi : ℚ) : ℚ :=
  max lo (min value hi)

/-- The duration-factor state of `TrajectoryMotion`:
`pending_events.do_duration_factor_update` and
`pending_events.duration_factor` from `DecisionData`, the process-data
factor `MotionStep::ProcessData::duration_factor` applied to upcoming
goals, and the remaining duration of the in-flight goal. -/
structure DurationFactorState where
  do_duration_factor_update : Bool
  pending_duration_factor : ℚ
  duration_factor : ℚ
  remaining_duration : ℚ
  deriving Repr, DecidableEq

namespace DurationFactorState

/-- Modelled from the spec: `updateDurationFactor(factor)` — its
implementation file is not in the sources, only its declaration ("Only
values between 1.0 and 5.0 will be considered"); per the spec it clamps the
requested value to [1.0, 5.0] and records it as the pending
duration-factor event. -/
def updateDurationFactor (s : DurationFactorState) (factor : ℚ) : DurationFactorState :=
  { s with
    do_duration_factor_update := true,
    pending_duration_factor := saturate factor DURATION_FACTOR_MIN DURATION_FACTOR_MAX }

/-- Modelled from the spec: draining the pending duration-factor event
applies the clamped value "to both the remaining duration of any in-flight
goal and every subsequently activated goal's duration" ("if the factor is
2.0, then the remaining duration will be doubled. As will all upcoming goal
durations"). -/
def applyPendingDurationFactor (s : DurationFactorState) : DurationFactorState :=
  if s.do_duration_factor_update then
    { s with
      do_duration_factor_update := false,
      duration_factor := s.pending_duration_factor,
      remaining_duration := s.remaining_duration * s.pending_duration_factor }
  else s

/-- Modelled from the spec: the duration of a subsequently activated goal is
its base duration scaled by the current duration factor. -/
def activatedGoalDuration (s : DurationFactorState) (base_duration : ℚ) : ℚ :=
  base_duration * s.duration_factor

end DurationFactorState

/-- C2 -- `updateDurationFactor` clamps the requested factor to [1.0, 5.0]
(a request of 10.0 takes effect as 5.0, a request of 0.5 as 1.0), and the
clamped value is applied both to the remaining duration of the in-flight
goal and to the duration of every subsequently activated goal. -/
theorem updateDurationFactor_clamps (s : DurationFactorState) (f d : ℚ) :
    (1 ≤ (s.updateDurationFactor f).pending_duration_factor ∧
      (s.updateDurationFactor f).pending_duration_factor ≤ 5) ∧
    (s.updateDurationFactor 10).pending_duration_factor = 5 ∧
    (s.updateDurationFactor (1/2)).pending_duration_factor = 1 ∧
    ((s.updateDurationFactor f).applyPendingDurationFactor).remaining_duration
        = s.remaining_duration * saturate f 1 5 ∧
    ((s.updateDurationFactor f).applyPendingDurationFactor).activatedGoalDuration d
        = d * saturate f 1 5 := by
  refine ⟨⟨le_max_left _ _, ?_⟩, ?_, ?_, ?_, ?_⟩
  · exact max_le (by norm_num [DURATION_FACTOR_MIN, DURATION_FACTOR_MAX])
      ((min_le_right _ _).trans (by norm_num [DURATION_FACTOR_MAX]))
  · norm_num [DurationFactorState.updateDurationFactor, saturate,
      DURATION_FACTOR_MIN, DURATION_FACTOR_MAX]
  · norm_num [DurationFactorState.updateDurationFactor, saturate,
      DURATION_FACTOR_MIN, DURATION_FACTOR_MAX]
  · simp [DurationFactorState.updateDurationFactor,
      DurationFactorState.applyPendingDurationFactor, saturate,
      DURATION_FACTOR_MIN, DURATION_FACTOR_MAX]
  · simp [DurationFactorState.updateDurationFactor,
      DurationFactorState.applyPendingDurationFactor,
      DurationFactorState.activatedGoalDuration, saturate,
      DURATION_FACTOR_MIN, DURATION_FACTOR_MAX]

/-- Witness for C2 at the state ⟨false, 1, 1, 2⟩: requesting 10.0 takes
effect as 5.0, the in-flight remaining duration 2 becomes 10 and a
subsequently activated goal of base duration 3 lasts 15. -/
theorem updateDurationFactor_clamps_witness :
    ((⟨false, 1, 1, 2⟩ : DurationFactorState).updateDurationFactor
        10).pending_duration_factor = 5 ∧
    (((⟨false, 1, 1, 2⟩ : DurationFactorState).updateDurationFactor
        10).applyPendingDurationFactor).remaining_duration = 10 ∧
    (((⟨false, 1, 1, 2⟩ : DurationFactorState).updateDurationFactor
        10).applyPendingDurationFactor).activatedGoalDuration 3 = 15 := by
  obtain ⟨-, h2, -, h4, h5⟩ :=
    updateDurationFactor_clamps (⟨false, 1, 1, 2⟩ : DurationFactorState) 10 3
  refine ⟨h2, ?_, ?_⟩
  · rw [h4]; norm_num [saturate]
  · rw [h5]; norm_num [saturate]

/-- Embeds the fields of a `wrapper::trajectory::PointGoal` touched by the
motion-step timing code: `reach()` and `duration()`. -/
structure PointGoalData where
  reach : Bool
  duration : ℚ
  deriving Repr, DecidableEq

/-- Embeds the `EGMInterpolator` state visible here: `getDuration()` returns
the duration of the current interpolation.  The interpolator itself is the
external InterpolationService (out of scope per the spec). -/
structure EGMInterpolator where
  duration : ℚ
  deriving Repr, DecidableEq

namespace EGMInterpolator

/-- Embeds `EGMInterpolator::getDuration()`. -/
def getDuration (i : EGMInterpolator) : ℚ :=
  i.duration

/-- Modelled from the spec: `EGMInterpolator::update(...)` (external
InterpolationService, not in the sources) receives the internal goal and
the timing conditions on activation; the conditions' duration becomes the
duration reported by `getDuration()`. -/
def update (_i : EGMInterpolator) (conditions_duration : ℚ) : EGMInterpolator :=
  ⟨conditions_duration⟩

end EGMInterpolator

/-- Embeds `MotionStep::ProcessData` (the fields the timing claims touch):
`time_passed`, `estimated_sample_time` and `duration_factor`. -/
structure ProcessData where
  time_passed : ℚ
  estimated_sample_time : ℚ
  duration_factor : ℚ
  deriving Repr, DecidableEq

/-- Embeds class `MotionStep` (the members its timing methods touch):
`data`, `internal_goal`, `interpolation`, `interpolator` and the duration of
`interpolator_conditions_`. -/
structure MotionStep where
  data : ProcessData
  internal_goal : PointGoalData
  interpolation : PointGoalData
  interpolator : EGMInterpolator
  interpolator_conditions_duration : ℚ
  deriving Repr, DecidableEq

namespace MotionStep

/-- Embeds `MotionStep::interpolationDurationReached()`:
`(interpolator.getDuration() - data.time_passed) <
0.5*Constants::RobotController::LOWEST_SAMPLE_TIME`.  The constant
`LOWEST_SAMPLE_TIME` is declared in a header that is not in the sources, so
it is passed as the parameter `lowest_sample_time`. -/
def interpolationDurationReached (lowest_sample_time : ℚ) (m : MotionStep) : Bool :=
  decide (m.interpolator.getDuration - m.data.time_passed < 0.5 * lowest_sample_time)

/-- Embeds `MotionStep::updateInterpolator()`: `data.time_passed = 0.0;
interpolation.set_reach(internal_goal.reach());
interpolation.set_duration(interpolator_conditions_.duration);
interpolator.update(interpolation, internal_goal, interpolator_conditions_)`. -/
def updateInterpolator (m : MotionStep) : MotionStep :=
  { m with
    data := { m.data with time_passed := 0 },
    interpolation := { m.interpolation with
      reach := m.internal_goal.reach,
      duration := m.interpolator_conditions_duration },
    interpolator := m.interpolator.update m.interpolator_conditions_duration }

/-- Embeds `MotionStep::evaluateInterpolator()`: `data.time_passed +=
data.estimated_sample_time; interpolator.evaluate(&interpolation,
data.estimated_sample_time, data.time_passed)`.  The interpolated point
written by the external InterpolationService is an uninterpreted function
`curve` of the interpolation duration, the sample time and the (already
advanced) time instance. -/
def evaluateInterpolator (curve : ℚ → ℚ → ℚ → PointGoalData) (m : MotionStep) : MotionStep :=
  { m with
    data := { m.data with
      time_passed := m.data.time_passed + m.data.estimated_sample_time },
    interpolation := curve m.interpolator.duration m.data.estimated_sample_time
      (m.data.time_passed + m.data.estimated_sample_time) }

end MotionStep

/-- C7 -- `interpolationDurationReached()` returns true iff the remaining
time (interpolation duration minus elapsed time) is strictly less than half
the controller's lowest sample time; equivalently it becomes (and, the
elapsed time never decreasing, stays) true exactly once the elapsed time is
within half a sample period of the total duration. -/
theorem interpolationDurationReached_iff (lowest_sample_time : ℚ) (m : MotionStep) :
    (m.interpolationDurationReached lowest_sample_time = true ↔
      m.interpolator.getDuration - m.data.time_passed < 0.5 * lowest_sample_time) ∧
    (m.interpolationDurationReached lowest_sample_time = true ↔
      m.interpolator.getDuration - 0.5 * lowest_sample_time < m.data.time_passed) ∧
    (∀ m' : MotionStep, m'.interpolator = m.interpolator →
      m.data.time_passed ≤ m'.data.time_passed →
      m.interpolationDurationReached lowest_sample_time = true →
      m'.interpolationDurationReached lowest_sample_time = true) := by
  refine ⟨decide_eq_true_iff, ?_, ?_⟩
  · unfold MotionStep.interpolationDurationReached
    rw [decide_eq_true_iff]
    exact sub_lt_comm
  · intro m' hi hle h
    rw [MotionStep.interpolationDurationReached, decide_eq_true_iff] at h ⊢
    rw [hi]
    have : m.interpolator.getDuration - m'.data.time_passed
        ≤ m.interpolator.getDuration - m.data.time_passed := by linarith
    exact lt_of_le_of_lt this h

/-- Witness for C7: with lowest sample time 1/250 s, duration 1 s and
elapsed time 999/1000 s the remaining 1/1000 s is below half a sample
period, so the check returns true. -/
theorem interpolationDurationReached_iff_witness :
    MotionStep.interpolationDurationReached (1/250)
      ⟨⟨999/1000, 1/250, 1⟩, ⟨false, 0⟩, ⟨false, 0⟩, ⟨1⟩, 1⟩ = true := by
  apply (interpolationDurationReached_iff (1/250)
    ⟨⟨999/1000, 1/250, 1⟩, ⟨false, 0⟩, ⟨false, 0⟩, ⟨1⟩, 1⟩).1.mpr
  norm_num [EGMInterpolator.getDuration]

theorem evaluateInterpolator_iterate (curve : ℚ → ℚ → ℚ → PointGoalData) :
    ∀ (n : Nat) (m : MotionStep),
      ((MotionStep.evaluateInterpolator curve)^[n] m).data.time_passed
          = m.data.time_passed + n * m.data.estimated_sample_time ∧
      ((MotionStep.evaluateInterpolator curve)^[n] m).data.estimated_sample_time
          = m.data.estimated_sample_time := by
  intro n
  induction n with
  | zero => intro m; simp
  | succ k ih =>
    intro m
    rw [Function.iterate_succ_apply]
    obtain ⟨h1, h2⟩ := ih (MotionStep.evaluateInterpolator curve m)
    constructor
    · rw [h1]
      simp only [MotionStep.evaluateInterpolator]
      push_cast
      ring
    · rw [h2]
      rfl

/-- C8 -- elapsed time-in-goal bookkeeping: `updateInterpolator` resets
`time_passed` to exactly 0, each `evaluateInterpolator` call increases
`time_passed` by exactly the estimated sample time, and after one
activation followed by n evaluations the elapsed time equals n times the
estimated sample time. -/
theorem time_passed_bookkeeping (curve : ℚ → ℚ → ℚ → PointGoalData)
    (m : MotionStep) (n : Nat) :
    (m.updateInterpolator).data.time_passed = 0 ∧
    (∀ m' : MotionStep, (MotionStep.evaluateInterpolator curve m').data.time_passed
        = m'.data.time_passed + m'.data.estimated_sample_time) ∧
    ((MotionStep.evaluateInterpolator curve)^[n] m.updateInterpolator).data.time_passed
        = n * m.data.estimated_sample_time := by
  refine ⟨rfl, fun m' => rfl, ?_⟩
  obtain ⟨h1, -⟩ := evaluateInterpolator_iterate curve n m.updateInterpolator
  rw [h1]
  simp [MotionStep.updateInterpolator]

/-- Witness for C8: with estimated sample time 1/250 s, three evaluations
after an activation leave an elapsed time of 3/250 s. -/
theorem time_passed_bookkeeping_witness :
    ((MotionStep.evaluateInterpolator (fun _ _ _ => ⟨false, 0⟩))^[3]
        (MotionStep.updateInterpolator
          ⟨⟨7, 1/250, 1⟩, ⟨false, 0⟩, ⟨false, 0⟩, ⟨1⟩, 1⟩)).data.time_passed
      = 3 * (1/250) := by
  exact (time_passed_bookkeeping (fun _ _ _ => ⟨false, 0⟩)
    ⟨⟨7, 1/250, 1⟩, ⟨false, 0⟩, ⟨false, 0⟩, ⟨1⟩, 1⟩ 3).2.2

/-- Embeds the ramp factor `Controller::a_`: "Ramp factor that goes from
1 -> 0 according to 0.5*cos(pi*x) + 0.5, where x = [0, 1]". -/
noncomputable def rampFactorA (x : ℝ) : ℝ :=
  0.5 * Real.cos (Real.pi * x) + 0.5

/-- Embeds the ramp factor `Controller::b_`, which varies "according to
0.5*cos(pi*x + pi) + 0.5, where x = [0, 1]". -/
noncomputable def rampFactorB (x : ℝ) : ℝ :=
  0.5 * Real.cos (Real.pi * x + Real.pi) + 0.5

theorem rampFactorB_eq_one_sub (x : ℝ) : rampFactorB x = 1 - rampFactorA x := by
  unfold rampFactorA rampFactorB
  rw [Real.cos_add_pi]
  ring

/-- C9 -- the two controller ramp weights are complementary over the
transition: for every x in [0, 1] they sum to 1, the weight
a(x) = 0.5·cos(πx) + 0.5 decays monotonically from 1 at x = 0 to 0 at
x = 1, and the weight b(x) = 0.5·cos(πx + π) + 0.5 rises monotonically from
0 at x = 0 to 1 at x = 1. -/
theorem ramp_factors_complementary :
    (∀ x ∈ Set.Icc (0:ℝ) 1, rampFactorA x + rampFactorB x = 1) ∧
    StrictAntiOn rampFactorA (Set.Icc (0:ℝ) 1) ∧
    StrictMonoOn rampFactorB (Set.Icc (0:ℝ) 1) ∧
    rampFactorA 0 = 1 ∧ rampFactorA 1 = 0 ∧ rampFactorB 0 = 0 ∧ rampFactorB 1 = 1 := by
  have hpi := Real.pi_pos
  have hmem : ∀ x : ℝ, x ∈ Set.Icc (0:ℝ) 1 → Real.pi * x ∈ Set.Icc 0 Real.pi := by
    intro x hx
    exact ⟨mul_nonneg hpi.le hx.1, by
      calc Real.pi * x ≤ Real.pi * 1 := by
            exact mul_le_mul_of_nonneg_left hx.2 hpi.le
        _ = Real.pi := mul_one _⟩
  have hanti : StrictAntiOn rampFactorA (Set.Icc (0:ℝ) 1) := by
    intro x hx y hy hxy
    unfold rampFactorA
    have hcos : Real.cos (Real.pi * y) < Real.cos (Real.pi * x) :=
      Real.strictAntiOn_cos (hmem x hx) (hmem y hy)
        (by exact mul_lt_mul_of_pos_left hxy hpi)
    linarith
  refine ⟨fun x _ => by rw [rampFactorB_eq_one_sub]; ring, hanti, ?_, ?_, ?_, ?_, ?_⟩
  · intro x hx y hy hxy
    rw [rampFactorB_eq_one_sub, rampFactorB_eq_one_sub]
    have := hanti hx hy hxy
    linarith
  · unfold rampFactorA
    rw [mul_zero, Real.cos_zero]
    norm_num
  · unfold rampFactorA
    rw [mul_one, Real.cos_pi]
    norm_num
  · rw [rampFactorB_eq_one_sub]
    unfold rampFactorA
    rw [mul_zero, Real.cos_zero]
    norm_num
  · rw [rampFactorB_eq_one_sub]
    unfold rampFactorA
    rw [mul_one, Real.cos_pi]
    norm_num

end AbbEgm
